import Mathlib

/-
Shallow embedding of the dsync meta-tree builder (makemetatree.py).

Conventions of the embedding:
* Python byte strings that carry file data are `List Nat` (one entry per byte).
* Python text strings (names, paths, URLs) are Lean `String`; `uniconvert` is
  the identity on them, since a Lean `String` is already valid UTF-8, so the
  `BadFilename` branch of the source cannot arise in the model.
* The external SHA-1 library object `sha.sha()` is modelled by the list of
  bytes fed to it since it was created (field `sh`); taking a digest applies
  an arbitrary digest function `hash : List Nat -> List Nat`, over which all
  theorems are parametric.
* Python exceptions are an `Err` value in an `Except`-shaped result.
* Recursive procedures are embedded with an explicit recursion-depth fuel so
  that every definition is structurally recursive and kernel-reducible; fuel
  exhaustion is reported with the artificial `Err.fuelExhausted`, which is
  never produced when the fuel exceeds the recursion depth of the input.
-/

/-- One entry of `Info.fs`: the dictionary
`\x7b'length': size, 'path': path\x7d` built by `Info.add_file_info`. -/
structure FileEntry where
  length : Nat
  path : List String
deriving DecidableEq, Repr

/-- Values of the bencoded dictionary assembled by `Info.write`:
integers, byte strings carrying text, byte strings carrying raw digest
bytes, lists, and string-keyed dictionaries. -/
inductive BValue where
  | int (n : Int)
  | str (s : String)
  | bytes (b : List Nat)
  | list (l : List BValue)
  | dict (d : List (String × BValue))

/-- The Python exceptions that the source can raise, plus the embedding
artifact `fuelExhausted` (see the module comment). -/
inductive Err where
  /-- `Exception("Entry is neither file nor directory: %s" % loc)` raised by
  `BTTree.__init__`; the spec calls it `UnsupportedEntry`. -/
  | unsupportedEntry (loc : String)
  /-- `NameError`: evaluating the undefined name of a broken `except` clause. -/
  | nameError (name : String)
  /-- `UnboundLocalError`: a function-local variable read before its first
  assignment. -/
  | unboundLocalError (name : String)
  /-- `IOError`: `open(loc, 'rb')` on something that is not a regular file. -/
  | ioError (loc : String)
  /-- `IndexError`: `self.path[0]` on an empty path. -/
  | indexError (what : String)
  /-- Embedding artifact: the recursion-depth fuel ran out. -/
  | fuelExhausted
deriving DecidableEq, Repr

/-- `Info` - the state of one torrent scope (class `Info` of the source).
`sh` is the byte content of the current in-progress SHA-1 object. -/
structure Info where
  name : String
  target : String
  tracker : String
  size : Nat
  piece_length : Nat
  pieces : List (List Nat)
  sh : List Nat
  done : Nat
  fs : List FileEntry
  totalhashed : Nat
deriving DecidableEq, Repr

/-- `Info.get_piece_len`: piece size from total size (the policy table). -/
def get_piece_len (size : Nat) : Nat :=
  if size > 8 * 1024 * 1024 * 1024 then 2 ^ 21
  else if size > 2 * 1024 * 1024 * 1024 then 2 ^ 20
  else if size > 512 * 1024 * 1024 then 2 ^ 19
  else if size > 64 * 1024 * 1024 then 2 ^ 18
  else if size > 16 * 1024 * 1024 then 2 ^ 17
  else if size > 4 * 1024 * 1024 then 2 ^ 16
  else 2 ^ 15

/-- `Info.__init__(source, target, tracker, size)`; `uniconvert` is the
identity on valid UTF-8 names (see the module comment). -/
def Info.init (source target tracker : String) (size : Nat) : Info :=
  { name := source
    target := target
    tracker := tracker
    size := size
    piece_length := get_piece_len size
    pieces := []
    sh := []
    done := 0
    fs := []
    totalhashed := 0 }

/-- `Info.add_file_info(size, path)`: append one file record to `fs`. -/
def Info.add_file_info (i : Info) (size : Nat) (path : List String) : Info :=
  { i with fs := i.fs ++ [{ length := size, path := path }] }

/-- The `while len(data) > 0` loop of `Info.add_data`, with fuel.  Each
iteration either absorbs a final short chunk (`a < r`: update `sh`, `done`,
`totalhashed`, stop) or completes a piece (split off `r` bytes, digest,
reset `done` and `sh`, continue); note that the source does not touch
`totalhashed` on the piece-completing branch.  When `done >= piece_length`
(unreachable from a fresh scope) the source loop stops making progress, and
the fuel runs out instead. -/
def add_data_go (hash : List Nat → List Nat) : Nat → Info → List Nat → Info
  | 0, i, _ => i
  | fuel + 1, i, data =>
    if data.length = 0 then i
    else
      let a := data.length
      let r := i.piece_length - i.done
      if a < r then
        { i with
          sh := i.sh ++ data
          done := i.done + a
          totalhashed := i.totalhashed + a }
      else
        let d := data.take r
        let rest := data.drop r
        add_data_go hash fuel
          { i with
            sh := []
            pieces := i.pieces ++ [hash (i.sh ++ d)]
            done := 0 }
          rest

/-- `Info.add_data(data)`.  A fuel of `data.length` is exact: every loop
iteration that recurses consumes at least one byte of `data`. -/
def Info.add_data (hash : List Nat → List Nat) (i : Info) (data : List Nat) : Info :=
  add_data_go hash data.length i data

/-- The piece flush at the top of `Info.write`: if `done > 0`, the digest of
whatever is left in the SHA-1 object becomes the final (short) piece. -/
def Info.write_pieces (hash : List Nat → List Nat) (i : Info) : List (List Nat) :=
  if i.done > 0 then i.pieces ++ [hash i.sh] else i.pieces

/-- One `fs` entry as serialized into the metainfo `files` list. -/
def fileDict (f : FileEntry) : BValue :=
  .dict [("length", .int (f.length : Int)), ("path", .list (f.path.map BValue.str))]

/-- The top-level dictionary built by `Info.write` and handed to `bencode`:
`info` / `announce` / `creation data` (the source misspells the standard
`creation date` key).  `now` is the value of `long(time())`. -/
def Info.write_data (hash : List Nat → List Nat) (i : Info) (now : Int) :
    List (String × BValue) :=
  let pieces := Info.write_pieces hash i
  [("info", .dict
      [("pieces", .bytes pieces.flatten),
       ("piece length", .int (i.piece_length : Int)),
       ("files", .list (i.fs.map fileDict)),
       ("name", .str i.name)]),
   ("announce", .str i.tracker),
   ("creation data", .int now)]

/-- Spec-side definition (from the claim wording, to be compared with the
code): the list of consecutive `L`-byte full blocks of `B`, the `k`-th block
being `B[k*L : k*L + L]`. -/
def fullBlocks (L : Nat) (s : List Nat) : List (List Nat) :=
  (List.range (s.length / L)).map (fun k => (s.drop (k * L)).take L)

/-- Spec-side definition: the trailing residue `B[(|B| / L) * L : |B|]`
left after all full `L`-byte blocks. -/
def lastRem (L : Nat) (s : List Nat) : List Nat :=
  s.drop (s.length / L * L)

/-- Spec-side definition (claim C1 wording): the consecutive `L`-byte blocks
of `B`, with the final (possibly short) block included iff
`|B| mod L ≠ 0`; empty when `B` is empty. -/
def specBlocks (L : Nat) (B : List Nat) : List (List Nat) :=
  fullBlocks L B ++ (if B.length % L = 0 then [] else [lastRem L B])

/-- A filesystem entry, as far as `os.path.isfile` / `os.path.isdir` /
`os.listdir` / `open` / `os.path.getsize` observe it: a regular file with
its bytes, a directory with named children (in no particular order; the
source sorts them), or anything else (device, socket, dangling symlink). -/
inductive FSEntry where
  | file (content : List Nat)
  | dir (entries : List (String × FSEntry))
  | other

/-- `BTTree` - location, logical path, whether the location is a regular
file (the source re-opens `self.loc` later, so the model records what the
filesystem will answer), children, and total size. -/
inductive BTTree where
  | mk (loc : String) (path : List String) (isFile : Bool)
      (subs : List BTTree) (size : Nat)

def BTTree.loc : BTTree → String
  | .mk l _ _ _ _ => l

def BTTree.path : BTTree → List String
  | .mk _ p _ _ _ => p

def BTTree.isFile : BTTree → Bool
  | .mk _ _ f _ _ => f

def BTTree.subs : BTTree → List BTTree
  | .mk _ _ _ s _ => s

def BTTree.size : BTTree → Nat
  | .mk _ _ _ _ n => n

/-- Insert an entry into a name-sorted entry list (ascending). -/
def insertEntry (x : String × FSEntry) : List (String × FSEntry) → List (String × FSEntry)
  | [] => [x]
  | y :: ys => if x.1 ≤ y.1 then x :: y :: ys else y :: insertEntry x ys

/-- `sorted(os.listdir(loc))`: the directory entries in ascending name
order (listdir yields unique names, so stability is irrelevant). -/
def sortEntries : List (String × FSEntry) → List (String × FSEntry)
  | [] => []
  | x :: xs => insertEntry x (sortEntries xs)

/-- `os.path.join` on a target directory and path components. -/
def joinPath (target : String) (path : List String) : String :=
  path.foldl (fun acc c => acc ++ "/" ++ c) target

/-- `BTTree.__init__(loc, path)`, with recursion-depth fuel.
For a file: record its size.  For a directory: walk the sorted listing,
skip names whose first byte is `.`, and recurse; the `except problem:`
clause names an undefined variable, so any exception from a child turns
into a `NameError` (which propagates, instead of the intended
notify-and-ignore).  Anything else raises the unsupported-entry
exception carrying `loc`.  `os.path.abspath` is modelled as the identity
(locations are taken to be absolute already). -/
def BTTree.initGo : Nat → FSEntry → String → List String → Except Err BTTree
  | 0, _, _, _ => .error .fuelExhausted
  | fuel + 1, fs, loc, path =>
    match fs with
    | .file content => .ok (.mk loc path true [] content.length)
    | .other => .error (.unsupportedEntry loc)
    | .dir entries =>
      let res := (sortEntries entries).foldl
        (fun (acc : Except Err (List BTTree)) ne =>
          match acc with
          | .error e => .error e
          | .ok subs =>
            -- `if sub[0] == '.': continue` (listdir names are nonempty)
            if ne.1.data.head? = some '.' then .ok subs
            else
              match BTTree.initGo fuel ne.2 (loc ++ "/" ++ ne.1) (path ++ [ne.1]) with
              | .ok t => .ok (subs ++ [t])
              | .error _ => .error (.nameError "problem"))
        (.ok ([] : List BTTree))
      match res with
      | .error e => .error e
      | .ok subs => .ok (.mk loc path false subs (subs.map BTTree.size).sum)

/-- An artifact written to disk by `Info.write`: target path and the
dictionary handed to the bencoder. -/
abbrev MetaWrite := String × List (String × BValue)

/-- One iteration of the `for sub in self.subs: sub.buildMetaTree(...)`
loop, as a fold step: once an exception has occurred it propagates (the
remaining siblings are never visited); otherwise visit the next child on
the current shared `infos` list and accumulate its writes. -/
def metaStep (visit : BTTree → List Info → Except Err Unit × List Info × List MetaWrite)
    (acc : Except Err Unit × List Info × List MetaWrite) (s : BTTree) :
    Except Err Unit × List Info × List MetaWrite :=
  match acc with
  | (.error e, inf, ws) => (.error e, inf, ws)
  | (.ok _, inf, ws) =>
    let q := visit s inf
    (q.1, q.2.1, ws ++ q.2.2)

/-- `BTTree.buildMetaTree(tracker, target, infos)`, with recursion-depth
fuel.  The result is the outcome (normal return or exception), the final
contents of the `infos` list, and the artifacts written.  The `infos`
list is threaded in and out because the source's `infos += [info]`
extends the caller's list object in place, so every frame observes (and
keeps) the appends of its callees.  Info values can be threaded immutably
because every source line that would mutate a member of `infos`
(`add_file_info`, `add_data`, the flush inside `write`) sits after a
statement that raises: at a leaf `open` raises `IOError` unless `loc` is
a regular file, and otherwise the first loop iteration of
`for i in infos: piece_length = max(piece_length, i.piece_length)` reads
the still-unassigned local `piece_length` and raises
`UnboundLocalError`. -/
def buildMetaTreeGo (hash : List Nat → List Nat) (now : Int) :
    Nat → BTTree → String → String → List Info →
    Except Err Unit × List Info × List MetaWrite
  | 0, _, _, _, infos => (.error .fuelExhausted, infos, [])
  | fuel + 1, t, tracker, target, infos =>
    match t with
    | .mk loc path isF subs size =>
      match path with
      | [] => (.error (.indexError "path"), infos, [])
      | name :: _ =>
        -- info = Info(self.path[0], os.path.join(target, *self.path) + '.torrent', tracker, self.size)
        let info := Info.init name (joinPath target path ++ ".torrent") tracker size
        -- infos += [info]  (in-place extension of the shared list)
        let infos2 := infos ++ [info]
        match subs with
        | [] =>
          if isF then
            -- h = open(self.loc,'rb') succeeds; then the first iteration of
            -- `for i in infos:` reads the unassigned local `piece_length`
            (.error (.unboundLocalError "piece_length"), infos2, [])
          else
            -- open(self.loc,'rb') on a directory raises IOError
            (.error (.ioError loc), infos2, [])
        | _ :: _ =>
          let r := subs.foldl
            (metaStep (fun s inf => buildMetaTreeGo hash now fuel s tracker target inf))
            (.ok (), infos2, ([] : List MetaWrite))
          match r with
          | (.error e, inf, ws) => (.error e, inf, ws)
          | (.ok _, inf, ws) =>
            -- makedirs for the target directory, then info.write()
            (.ok (), inf, ws ++ [(info.target, Info.write_data hash info now)])

/-- A concrete digest function used for witnesses and counterexamples. -/
def sampleHash (l : List Nat) : List Nat :=
  [l.length, l.sum]

/-- A fresh scope with an arbitrary piece length, for concrete tests. -/
def rawInfo (L : Nat) : Info :=
  { name := "x"
    target := "t"
    tracker := "u"
    size := 0
    piece_length := L
    pieces := []
    sh := []
    done := 0
    fs := []
    totalhashed := 0 }

/- ---------------------------------------------------------------- -/
/- Helper lemmas about full blocks and the trailing residue.        -/
/- ---------------------------------------------------------------- -/

theorem fullBlocks_short (L : Nat) (s : List Nat) (h : s.length < L) :
    fullBlocks L s = [] := by
  unfold fullBlocks
  rw [Nat.div_eq_of_lt h]
  rfl

theorem lastRem_short (L : Nat) (s : List Nat) (h : s.length < L) :
    lastRem L s = s := by
  unfold lastRem
  rw [Nat.div_eq_of_lt h, Nat.zero_mul, List.drop_zero]

theorem length_lastRem (L : Nat) (s : List Nat) :
    (lastRem L s).length = s.length % L := by
  unfold lastRem
  rw [List.length_drop]
  have h := Nat.div_add_mod s.length L
  have h2 : s.length / L * L = L * (s.length / L) := Nat.mul_comm _ _
  omega

theorem fullBlocks_chunk (L : Nat) (hL : 0 < L) (c w : List Nat) (hc : c.length = L) :
    fullBlocks L (c ++ w) = c :: fullBlocks L w := by
  unfold fullBlocks
  have hlen : (c ++ w).length = w.length + L := by
    rw [List.length_append, hc]; omega
  rw [hlen, Nat.add_div_right _ hL, List.range_succ_eq_map, List.map_cons, List.map_map]
  congr 1
  · rw [Nat.zero_mul, List.drop_zero, ← hc, List.take_left]
  · apply List.map_congr_left
    intro k _
    show ((c ++ w).drop (Nat.succ k * L)).take L = (w.drop (k * L)).take L
    have h1 : Nat.succ k * L = c.length + k * L := by
      rw [Nat.succ_mul, hc]; exact Nat.add_comm _ _
    rw [h1, ← List.drop_drop, List.drop_left]

theorem lastRem_chunk (L : Nat) (hL : 0 < L) (c w : List Nat) (hc : c.length = L) :
    lastRem L (c ++ w) = lastRem L w := by
  unfold lastRem
  have hlen : (c ++ w).length = w.length + L := by
    rw [List.length_append, hc]; omega
  rw [hlen, Nat.add_div_right _ hL]
  have h1 : (w.length / L + 1) * L = c.length + w.length / L * L := by
    rw [Nat.add_mul, Nat.one_mul, hc]; exact Nat.add_comm _ _
  rw [h1, ← List.drop_drop, List.drop_left]

theorem length_mod_chunk (L : Nat) (c w : List Nat) (hc : c.length = L) :
    (c ++ w).length % L = w.length % L := by
  rw [List.length_append, hc, Nat.add_mod_left]

theorem fullBlocks_nil (L : Nat) : fullBlocks L [] = [] := by
  simp [fullBlocks]

theorem fullBlocks_flush (L : Nat) (hL : 0 < L) :
    ∀ (n : Nat) (u v : List Nat), u.length = n → u.length % L = 0 →
      fullBlocks L (u ++ v) = fullBlocks L u ++ fullBlocks L v := by
  intro n
  induction n using Nat.strong_induction_on with
  | _ n ih =>
    intro u v hn hmod
    by_cases hsh : u.length < L
    · have h0 : u.length = 0 := by rw [Nat.mod_eq_of_lt hsh] at hmod; exact hmod
      have hu : u = [] := List.length_eq_zero.mp h0
      subst hu
      simp [fullBlocks_nil]
    · push_neg at hsh
      have htake : (u.take L).length = L := by rw [List.length_take]; omega
      have hsplit : u.take L ++ u.drop L = u := List.take_append_drop L u
      have hdroplen : (u.drop L).length = u.length - L := List.length_drop L u
      have hdropmod : (u.drop L).length % L = 0 := by
        obtain ⟨q, hq⟩ := Nat.dvd_of_mod_eq_zero hmod
        match q, hq with
        | 0, hq => omega
        | q + 1, hq =>
          rw [hdroplen, hq, Nat.mul_succ, Nat.add_sub_cancel]
          exact Nat.mul_mod_right L q
      calc fullBlocks L (u ++ v)
          = fullBlocks L (u.take L ++ (u.drop L ++ v)) := by
            rw [← List.append_assoc, hsplit]
        _ = u.take L :: fullBlocks L (u.drop L ++ v) := fullBlocks_chunk L hL _ _ htake
        _ = u.take L :: (fullBlocks L (u.drop L) ++ fullBlocks L v) := by
            rw [ih (u.drop L).length (by omega) (u.drop L) v rfl hdropmod]
        _ = (u.take L :: fullBlocks L (u.drop L)) ++ fullBlocks L v := rfl
        _ = fullBlocks L u ++ fullBlocks L v := by
            rw [← fullBlocks_chunk L hL _ _ htake, hsplit]

theorem lastRem_flush (L : Nat) (hL : 0 < L) :
    ∀ (n : Nat) (u v : List Nat), u.length = n → u.length % L = 0 →
      lastRem L (u ++ v) = lastRem L v := by
  intro n
  induction n using Nat.strong_induction_on with
  | _ n ih =>
    intro u v hn hmod
    by_cases hsh : u.length < L
    · have h0 : u.length = 0 := by rw [Nat.mod_eq_of_lt hsh] at hmod; exact hmod
      have hu : u = [] := List.length_eq_zero.mp h0
      subst hu
      simp
    · push_neg at hsh
      have htake : (u.take L).length = L := by rw [List.length_take]; omega
      have hsplit : u.take L ++ u.drop L = u := List.take_append_drop L u
      have hdroplen : (u.drop L).length = u.length - L := List.length_drop L u
      have hdropmod : (u.drop L).length % L = 0 := by
        obtain ⟨q, hq⟩ := Nat.dvd_of_mod_eq_zero hmod
        match q, hq with
        | 0, hq => omega
        | q + 1, hq =>
          rw [hdroplen, hq, Nat.mul_succ, Nat.add_sub_cancel]
          exact Nat.mul_mod_right L q
      calc lastRem L (u ++ v)
          = lastRem L (u.take L ++ (u.drop L ++ v)) := by
            rw [← List.append_assoc, hsplit]
        _ = lastRem L (u.drop L ++ v) := lastRem_chunk L hL _ _ htake
        _ = lastRem L v := ih (u.drop L).length (by omega) (u.drop L) v rfl hdropmod

theorem length_mod_flush (L : Nat) (u v : List Nat) (hmod : u.length % L = 0) :
    (u ++ v).length % L = v.length % L := by
  obtain ⟨q, hq⟩ := Nat.dvd_of_mod_eq_zero hmod
  rw [List.length_append, hq, Nat.mul_add_mod]

/-- Full characterization of the `add_data` loop on a consistent state
(`done` equal to the number of bytes in the SHA-1 object, and strictly
below the piece length): with `s = i.sh ++ data`, the pieces gained are
the digests of the full blocks of `s`, the SHA-1 object retains the
trailing residue of `s`, and `done` becomes `|s| mod piece_length`.
`totalhashed` is deliberately not characterized: the source only updates
it on the short-chunk branch. -/
theorem add_data_go_spec (hash : List Nat → List Nat) :
    ∀ (fuel : Nat) (i : Info) (data : List Nat),
      data.length ≤ fuel → i.done = i.sh.length → i.done < i.piece_length →
      (add_data_go hash fuel i data).pieces
          = i.pieces ++ (fullBlocks i.piece_length (i.sh ++ data)).map hash
      ∧ (add_data_go hash fuel i data).sh = lastRem i.piece_length (i.sh ++ data)
      ∧ (add_data_go hash fuel i data).done = (i.sh ++ data).length % i.piece_length
      ∧ (add_data_go hash fuel i data).piece_length = i.piece_length
      ∧ (add_data_go hash fuel i data).fs = i.fs
      ∧ (add_data_go hash fuel i data).name = i.name
      ∧ (add_data_go hash fuel i data).target = i.target
      ∧ (add_data_go hash fuel i data).tracker = i.tracker
      ∧ (add_data_go hash fuel i data).size = i.size := by
  intro fuel
  induction fuel with
  | zero =>
    intro i data hf hd hlt
    have hdata : data = [] := List.length_eq_zero.mp (by omega)
    subst hdata
    have hlen : (i.sh ++ []).length < i.piece_length := by
      rw [List.append_nil]; omega
    refine ⟨?_, ?_, ?_, rfl, rfl, rfl, rfl, rfl, rfl⟩
    · rw [fullBlocks_short _ _ hlen]
      simp [add_data_go]
    · rw [lastRem_short _ _ hlen]
      simp [add_data_go]
    · rw [Nat.mod_eq_of_lt hlen]
      simp only [add_data_go, List.append_nil]
      omega
  | succ fuel ih =>
    intro i data hf hd hlt
    by_cases hnil : data.length = 0
    · have hdata : data = [] := List.length_eq_zero.mp hnil
      subst hdata
      have hlen : (i.sh ++ []).length < i.piece_length := by
        rw [List.append_nil]; omega
      refine ⟨?_, ?_, ?_, rfl, rfl, rfl, rfl, rfl, rfl⟩
      · rw [fullBlocks_short _ _ hlen]
        simp [add_data_go]
      · rw [lastRem_short _ _ hlen]
        simp [add_data_go]
      · rw [Nat.mod_eq_of_lt hlen]
        simp only [add_data_go, List.append_nil, List.length_nil, if_pos]
        omega
    · by_cases hshort : data.length < i.piece_length - i.done
      · have hgo : add_data_go hash (fuel + 1) i data =
            { i with
              sh := i.sh ++ data
              done := i.done + data.length
              totalhashed := i.totalhashed + data.length } := by
          simp only [add_data_go, if_neg hnil, if_pos hshort]
        have hlen : (i.sh ++ data).length < i.piece_length := by
          rw [List.length_append]; omega
        rw [hgo]
        refine ⟨?_, ?_, ?_, rfl, rfl, rfl, rfl, rfl, rfl⟩
        · rw [fullBlocks_short _ _ hlen]
          simp
        · rw [lastRem_short _ _ hlen]
        · rw [Nat.mod_eq_of_lt hlen, List.length_append]
          show i.done + data.length = i.sh.length + data.length
          omega
      · push_neg at hshort
        have hgo : add_data_go hash (fuel + 1) i data =
            add_data_go hash fuel
              { i with
                sh := []
                pieces := i.pieces ++ [hash (i.sh ++ data.take (i.piece_length - i.done))]
                done := 0 }
              (data.drop (i.piece_length - i.done)) := by
          simp only [add_data_go, if_neg hnil, if_neg (not_lt.mpr hshort)]
        have hrest : (data.drop (i.piece_length - i.done)).length ≤ fuel := by
          rw [List.length_drop]; omega
        have hL0 : 0 < i.piece_length := by omega
        have hc : (i.sh ++ data.take (i.piece_length - i.done)).length = i.piece_length := by
          rw [List.length_append, List.length_take]; omega
        have hsplit : i.sh ++ data
            = (i.sh ++ data.take (i.piece_length - i.done))
              ++ data.drop (i.piece_length - i.done) := by
          rw [List.append_assoc, List.take_append_drop]
        obtain ⟨hp, hs, hdn, hpl, hfs, hn, ht, htr, hsz⟩ :=
          ih { i with
                sh := []
                pieces := i.pieces ++ [hash (i.sh ++ data.take (i.piece_length - i.done))]
                done := 0 }
             (data.drop (i.piece_length - i.done)) hrest rfl
             (show (0 : Nat) < i.piece_length from hL0)
        rw [hgo]
        refine ⟨?_, ?_, ?_, ?_, ?_, ?_, ?_, ?_, ?_⟩
        · rw [hp, hsplit, fullBlocks_chunk _ hL0 _ _ hc]
          show (i.pieces ++ [hash (i.sh ++ data.take (i.piece_length - i.done))])
                ++ (fullBlocks i.piece_length
                      (([] : List Nat) ++ data.drop (i.piece_length - i.done))).map hash
              = _
          simp
        · rw [hs, hsplit, lastRem_chunk _ hL0 _ _ hc]
          rfl
        · rw [hdn, hsplit, length_mod_chunk _ _ _ hc]
          rfl
        · exact hpl
        · exact hfs
        · exact hn
        · exact ht
        · exact htr
        · exact hsz

/-- `Info.add_data` on a consistent state, fieldwise. -/
theorem add_data_spec (hash : List Nat → List Nat) (i : Info) (data : List Nat)
    (hd : i.done = i.sh.length) (hlt : i.done < i.piece_length) :
    (Info.add_data hash i data).pieces
        = i.pieces ++ (fullBlocks i.piece_length (i.sh ++ data)).map hash
    ∧ (Info.add_data hash i data).sh = lastRem i.piece_length (i.sh ++ data)
    ∧ (Info.add_data hash i data).done = (i.sh ++ data).length % i.piece_length
    ∧ (Info.add_data hash i data).piece_length = i.piece_length :=
  have h := add_data_go_spec hash data.length i data le_rfl hd hlt
  ⟨h.1, h.2.1, h.2.2.1, h.2.2.2.1⟩

/-- Absorbing a list of chunks in order is the same as absorbing their
concatenation, as far as `pieces`, `sh` and `done` are concerned. -/
theorem foldl_add_data_spec (hash : List Nat → List Nat) :
    ∀ (cs : List (List Nat)) (i : Info),
      i.done = i.sh.length → i.done < i.piece_length →
      (cs.foldl (Info.add_data hash) i).pieces
          = i.pieces ++ (fullBlocks i.piece_length (i.sh ++ cs.flatten)).map hash
      ∧ (cs.foldl (Info.add_data hash) i).sh
          = lastRem i.piece_length (i.sh ++ cs.flatten)
      ∧ (cs.foldl (Info.add_data hash) i).done
          = (i.sh ++ cs.flatten).length % i.piece_length
      ∧ (cs.foldl (Info.add_data hash) i).piece_length = i.piece_length := by
  intro cs
  induction cs with
  | nil =>
    intro i hd hlt
    have hlen : (i.sh ++ (List.flatten ([] : List (List Nat)))).length < i.piece_length := by
      simp
      omega
    refine ⟨?_, ?_, ?_, rfl⟩
    · rw [fullBlocks_short _ _ hlen]
      simp
    · rw [lastRem_short _ _ hlen]
      simp
    · rw [Nat.mod_eq_of_lt hlen]
      simp
      omega
  | cons c cs ih =>
    intro i hd hlt
    have hL0 : 0 < i.piece_length := by omega
    obtain ⟨hp, hs, hdn, hpl⟩ := add_data_spec hash i c hd hlt
    have hd1 : (Info.add_data hash i c).done = (Info.add_data hash i c).sh.length := by
      rw [hdn, hs, length_lastRem]
    have hlt1 : (Info.add_data hash i c).done < (Info.add_data hash i c).piece_length := by
      rw [hdn, hpl]
      exact Nat.mod_lt _ hL0
    obtain ⟨gp, gs, gdn, gpl⟩ := ih (Info.add_data hash i c) hd1 hlt1
    have hu_len : ((i.sh ++ c).take ((i.sh ++ c).length / i.piece_length * i.piece_length)).length
        = (i.sh ++ c).length / i.piece_length * i.piece_length := by
      rw [List.length_take]
      exact Nat.min_eq_left (Nat.div_mul_le_self _ _)
    have hu_mod : ((i.sh ++ c).take ((i.sh ++ c).length / i.piece_length * i.piece_length)).length
        % i.piece_length = 0 := by
      rw [hu_len]
      exact Nat.mul_mod_left _ _
    have hsplit : (i.sh ++ c).take ((i.sh ++ c).length / i.piece_length * i.piece_length)
        ++ lastRem i.piece_length (i.sh ++ c) = i.sh ++ c :=
      List.take_append_drop _ _
    have hlr_short : (lastRem i.piece_length (i.sh ++ c)).length < i.piece_length := by
      rw [length_lastRem]
      exact Nat.mod_lt _ hL0
    have hueq : (i.sh ++ c).take ((i.sh ++ c).length / i.piece_length * i.piece_length)
        ++ (lastRem i.piece_length (i.sh ++ c) ++ cs.flatten)
        = i.sh ++ (c :: cs).flatten := by
      rw [← List.append_assoc, hsplit, List.append_assoc, ← List.flatten_cons]
    have h1 : fullBlocks i.piece_length (i.sh ++ c)
        = fullBlocks i.piece_length
            ((i.sh ++ c).take ((i.sh ++ c).length / i.piece_length * i.piece_length)) := by
      conv_lhs => rw [← hsplit]
      rw [fullBlocks_flush i.piece_length hL0 _ _ _ rfl hu_mod,
          fullBlocks_short _ _ hlr_short, List.append_nil]
    rw [List.foldl_cons]
    refine ⟨?_, ?_, ?_, gpl.trans hpl⟩
    · rw [gp, hp, hs, hpl, h1, ← hueq,
          fullBlocks_flush i.piece_length hL0 _ _ _ rfl hu_mod,
          List.map_append, List.append_assoc]
    · rw [gs, hs, hpl, ← hueq,
          lastRem_flush i.piece_length hL0 _ _ _ rfl hu_mod]
    · rw [gdn, hs, hpl, ← hueq, length_mod_flush i.piece_length _ _ hu_mod]

/-- Once a sibling has raised, the loop state is final: the exception
propagates past the remaining siblings. -/
theorem metaStep_foldl_err
    (visit : BTTree → List Info → Except Err Unit × List Info × List MetaWrite)
    (l : List BTTree) (e : Err) (inf : List Info) (ws : List MetaWrite) :
    l.foldl (metaStep visit) (.error e, inf, ws) = (.error e, inf, ws) := by
  induction l with
  | nil => rfl
  | cons s l ihl =>
    rw [List.foldl_cons]
    exact ihl

/-- If visiting the first child raises, the whole sibling loop ends in
that exception with the child's final `infos` list and no writes. -/
theorem metaStep_foldl_cons_err
    (visit : BTTree → List Info → Except Err Unit × List Info × List MetaWrite)
    (s : BTTree) (more : List BTTree) (inf : List Info) (e : Err) (inf2 : List Info)
    (h : visit s inf = (.error e, inf2, [])) :
    (s :: more).foldl (metaStep visit) (.ok (), inf, []) = (.error e, inf2, []) := by
  rw [List.foldl_cons]
  have hstep : metaStep visit (.ok (), inf, []) s = (.error e, inf2, []) := by
    simp [metaStep, h]
  rw [hstep]
  exact metaStep_foldl_err visit more e inf2 []

/-- Every invocation of the driver fails before writing anything: each
terminal node either raises `IOError` at `open` (when the location is not
a regular file) or `UnboundLocalError` in the first iteration of the loop
over `infos`, and the exception propagates all the way up.  The shared
`infos` list nevertheless grows: each node entered appends its scope
before the failure, so the result extends the input list, every appended
`Info` still has empty `fs` and `pieces`, and no artifact is written. -/
theorem buildMetaTreeGo_err (hash : List Nat → List Nat) (now : Int) :
    ∀ (fuel : Nat) (t : BTTree) (tracker target : String) (infos : List Info),
      ∃ e newInfos,
        buildMetaTreeGo hash now fuel t tracker target infos
          = (.error e, infos ++ newInfos, [])
        ∧ ∀ i ∈ newInfos, i.fs = [] ∧ i.pieces = [] ∧ i.done = 0 := by
  intro fuel
  induction fuel with
  | zero =>
    intro t tracker target infos
    exact ⟨.fuelExhausted, [], by simp [buildMetaTreeGo], by simp⟩
  | succ fuel ih =>
    intro t tracker target infos
    match t with
    | .mk loc path isF subs size =>
      match path with
      | [] =>
        exact ⟨.indexError "path", [], by simp [buildMetaTreeGo], by simp⟩
      | name :: prest =>
        match subs with
        | [] =>
          cases isF with
          | true =>
            refine ⟨.unboundLocalError "piece_length",
              [Info.init name (joinPath target (name :: prest) ++ ".torrent") tracker size],
              ?_, ?_⟩
            · simp [buildMetaTreeGo]
            · intro i hi
              rw [List.mem_singleton] at hi
              subst hi
              exact ⟨rfl, rfl, rfl⟩
          | false =>
            refine ⟨.ioError loc,
              [Info.init name (joinPath target (name :: prest) ++ ".torrent") tracker size],
              ?_, ?_⟩
            · simp [buildMetaTreeGo]
            · intro i hi
              rw [List.mem_singleton] at hi
              subst hi
              exact ⟨rfl, rfl, rfl⟩
        | s :: more =>
          obtain ⟨e, new, heq, hprop⟩ := ih s tracker target
            (infos ++ [Info.init name (joinPath target (name :: prest) ++ ".torrent") tracker size])
          refine ⟨e,
            [Info.init name (joinPath target (name :: prest) ++ ".torrent") tracker size] ++ new,
            ?_, ?_⟩
          · have hfold := metaStep_foldl_cons_err
              (fun s2 inf => buildMetaTreeGo hash now fuel s2 tracker target inf)
              s more
              (infos ++ [Info.init name (joinPath target (name :: prest) ++ ".torrent") tracker size])
              e
              ((infos ++ [Info.init name (joinPath target (name :: prest) ++ ".torrent") tracker size]) ++ new)
              heq
            simp only [buildMetaTreeGo]
            rw [hfold]
            rw [List.append_assoc]
          · intro i hi
            rw [List.mem_append] at hi
            cases hi with
            | inl h1 =>
              rw [List.mem_singleton] at h1
              subst h1
              exact ⟨rfl, rfl, rfl⟩
            | inr h2 => exact hprop i h2

/- ---------------------------------------------------------------- -/
/- Claim theorems.                                                  -/
/- ---------------------------------------------------------------- -/

/-- Claim C1: for every byte sequence `B` and fixed piece length `L > 0`,
absorbing `B` into a fresh scope via `add_data` and then finalizing
(the piece flush at the top of `write`) yields exactly the digests of the
consecutive `L`-byte blocks of `B`, the final (possibly short) block being
included iff `|B| mod L ≠ 0`, and no digest at all when `B` is empty
(`specBlocks` is the claim-side description of those blocks). -/
theorem c1_concat_law (hash : List Nat → List Nat) (i : Info) (B : List Nat)
    (hfresh : i.pieces = [] ∧ i.sh = [] ∧ i.done = 0) (hL : 0 < i.piece_length) :
    Info.write_pieces hash (Info.add_data hash i B)
      = (specBlocks i.piece_length B).map hash := by
  obtain ⟨hp0, hs0, hd0⟩ := hfresh
  have hd : i.done = i.sh.length := by
    rw [hd0, hs0]
    rfl
  have hlt : i.done < i.piece_length := by omega
  obtain ⟨hp, hs, hdn, hpl⟩ := add_data_spec hash i B hd hlt
  rw [hs0] at hp hs hdn
  simp only [List.nil_append] at hp hs hdn
  simp only [Info.write_pieces, specBlocks, hp, hs, hdn, hp0, List.nil_append]
  by_cases hm : B.length % i.piece_length = 0
  · simp [hm]
  · simp [hm, Nat.pos_of_ne_zero hm, List.map_append]

/-- Witness for C1 at a concrete input: a fresh scope with piece length 2
absorbing three bytes. -/
theorem c1_concat_law_witness :
    ((rawInfo 2).pieces = [] ∧ (rawInfo 2).sh = [] ∧ (rawInfo 2).done = 0)
    ∧ 0 < (rawInfo 2).piece_length
    ∧ Info.write_pieces sampleHash (Info.add_data sampleHash (rawInfo 2) [1, 2, 3])
        = (specBlocks (rawInfo 2).piece_length [1, 2, 3]).map sampleHash :=
  ⟨⟨rfl, rfl, rfl⟩, by decide,
    c1_concat_law sampleHash (rawInfo 2) [1, 2, 3] ⟨rfl, rfl, rfl⟩ (by decide)⟩

/-- Claim C2: absorbing any two chunkings of the same byte stream, in
order, into fresh scopes with the same piece length gives identical
`pieces`, identical `done` and identical in-progress digest state `sh`.
(The chunkings are absorbed into the same fresh scope value `i`, which is
exactly two fresh scopes with the same piece length.) -/
theorem c2_chunk_indep (hash : List Nat → List Nat) (i : Info)
    (cs ds : List (List Nat))
    (hfresh : i.pieces = [] ∧ i.sh = [] ∧ i.done = 0) (hL : 0 < i.piece_length)
    (hjoin : cs.flatten = ds.flatten) :
    (cs.foldl (Info.add_data hash) i).pieces = (ds.foldl (Info.add_data hash) i).pieces
    ∧ (cs.foldl (Info.add_data hash) i).done = (ds.foldl (Info.add_data hash) i).done
    ∧ (cs.foldl (Info.add_data hash) i).sh = (ds.foldl (Info.add_data hash) i).sh := by
  obtain ⟨hp0, hs0, hd0⟩ := hfresh
  have hd : i.done = i.sh.length := by
    rw [hd0, hs0]
    rfl
  have hlt : i.done < i.piece_length := by omega
  obtain ⟨cp, csh, cdn, _⟩ := foldl_add_data_spec hash cs i hd hlt
  obtain ⟨dp, dsh, ddn, _⟩ := foldl_add_data_spec hash ds i hd hlt
  refine ⟨?_, ?_, ?_⟩
  · rw [cp, dp, hjoin]
  · rw [cdn, ddn, hjoin]
  · rw [csh, dsh, hjoin]

/-- Witness for C2 at a concrete input: the stream `[1,2,3,4]` absorbed as
`[1] ++ [2,3,4]` and as `[1,2] ++ [3,4]` into a fresh scope of piece
length 3. -/
theorem c2_chunk_indep_witness :
    (((rawInfo 3).pieces = [] ∧ (rawInfo 3).sh = [] ∧ (rawInfo 3).done = 0)
      ∧ 0 < (rawInfo 3).piece_length
      ∧ ([[1], [2, 3, 4]] : List (List Nat)).flatten
          = ([[1, 2], [3, 4]] : List (List Nat)).flatten)
    ∧ (([[1], [2, 3, 4]] : List (List Nat)).foldl (Info.add_data sampleHash) (rawInfo 3)).pieces
        = (([[1, 2], [3, 4]] : List (List Nat)).foldl (Info.add_data sampleHash) (rawInfo 3)).pieces
    ∧ (([[1], [2, 3, 4]] : List (List Nat)).foldl (Info.add_data sampleHash) (rawInfo 3)).done
        = (([[1, 2], [3, 4]] : List (List Nat)).foldl (Info.add_data sampleHash) (rawInfo 3)).done
    ∧ (([[1], [2, 3, 4]] : List (List Nat)).foldl (Info.add_data sampleHash) (rawInfo 3)).sh
        = (([[1, 2], [3, 4]] : List (List Nat)).foldl (Info.add_data sampleHash) (rawInfo 3)).sh :=
  ⟨⟨⟨rfl, rfl, rfl⟩, by decide, rfl⟩,
    (c2_chunk_indep sampleHash (rawInfo 3) [[1], [2, 3, 4]] [[1, 2], [3, 4]]
      ⟨rfl, rfl, rfl⟩ (by decide) rfl).1,
    (c2_chunk_indep sampleHash (rawInfo 3) [[1], [2, 3, 4]] [[1, 2], [3, 4]]
      ⟨rfl, rfl, rfl⟩ (by decide) rfl).2.1,
    (c2_chunk_indep sampleHash (rawInfo 3) [[1], [2, 3, 4]] [[1, 2], [3, 4]]
      ⟨rfl, rfl, rfl⟩ (by decide) rfl).2.2⟩

/-- Claim C3 (code bug): visiting a leaf never reads the file in
max-piece-length chunks.  The local `piece_length` of `buildMetaTree` is
read before its first assignment in
`for i in infos: piece_length = max(piece_length, i.piece_length)`,
so the very first iteration raises `UnboundLocalError` - before any byte
is read from the file and before any scope absorbs anything.  Here the
driver is run on a single regular file of three bytes. -/
theorem c3_leaf_read_bug :
    buildMetaTreeGo sampleHash 0 2 (BTTree.mk "/src/f" ["f"] true [] 3) "u" "T" []
      = (.error (.unboundLocalError "piece_length"),
         [Info.init "f" "T/f.torrent" "u" 3], []) := rfl

/-- Claim C4 (code bug): `infos += [info]` extends the caller's list
object in place, so recursing into a child does mutate the parent frame's
scope list, and a node's scope is never removed when the recursion leaves
it.  Concretely: the caller passes the empty list to a directory with one
file child, and after the call the caller's list holds both the
directory's scope and the child's scope. -/
theorem c4_shared_stack_bug :
    (buildMetaTreeGo sampleHash 0 3
        (BTTree.mk "/src/a" ["a"] false [BTTree.mk "/src/a/f" ["a", "f"] true [] 1] 1)
        "u" "T" []).2.1
      = [Info.init "a" "T/a.torrent" "u" 1, Info.init "a" "T/a/f.torrent" "u" 1] := rfl

/-- Claim C5 (code bug): after absorbing exactly one full piece into a
fresh scope of piece length 4, the scope has one emitted piece and
`done = 0`, but `totalhashed = 0` instead of
`(number of pieces) * piece_length + done = 4`: the source only updates
`totalhashed` on the short-chunk branch of `add_data`. -/
theorem c5_totalhashed_bug :
    (rawInfo 4).piece_length = 4
    ∧ (Info.add_data sampleHash (rawInfo 4) [10, 11, 12, 13]).pieces.length = 1
    ∧ (Info.add_data sampleHash (rawInfo 4) [10, 11, 12, 13]).done = 0
    ∧ (Info.add_data sampleHash (rawInfo 4) [10, 11, 12, 13]).totalhashed = 0 :=
  ⟨rfl, rfl, rfl, rfl⟩

/-- Claim C6 counterexample: visiting the leaves of a directory with two
files records no file entry in any scope at all - neither the bare name in
the leaf's own scope nor a relative path in the ancestor's - because the
leaf visit raises `UnboundLocalError` before `add_file_info` is reached
(and the call that would follow passes the same full `self.path` to every
scope on the stack, not scope-relative paths). -/
theorem c6_counterexample :
    ((buildMetaTreeGo sampleHash 0 3
        (BTTree.mk "/src/a" ["a"] false
          [BTTree.mk "/src/a/f" ["a", "f"] true [] 2,
           BTTree.mk "/src/a/g" ["a", "g"] true [] 2] 4)
        "u" "T" []).2.1).map Info.fs = [[], []] := rfl

/-- Claim C6 amended: when a leaf is visited, no file entry is recorded in
any active scope: every run of the driver ends in an exception raised
before `add_file_info` executes, so every scope's `fs` stays as it
started. -/
theorem c6_amended (hash : List Nat → List Nat) (now : Int) (fuel : Nat) (t : BTTree)
    (tracker target : String) (infos : List Info)
    (h : ∀ i ∈ infos, i.fs = []) :
    (∃ e, (buildMetaTreeGo hash now fuel t tracker target infos).1 = .error e)
    ∧ ∀ j ∈ (buildMetaTreeGo hash now fuel t tracker target infos).2.1, j.fs = [] := by
  obtain ⟨e, new, heq, hnew⟩ := buildMetaTreeGo_err hash now fuel t tracker target infos
  rw [heq]
  refine ⟨⟨e, rfl⟩, ?_⟩
  intro j hj
  rw [List.mem_append] at hj
  cases hj with
  | inl h1 => exact h j h1
  | inr h2 => exact (hnew j h2).1

/-- Witness for the amended C6 at a concrete input. -/
theorem c6_amended_witness :
    (∀ i ∈ ([] : List Info), i.fs = [])
    ∧ ((∃ e, (buildMetaTreeGo sampleHash 0 2 (BTTree.mk "/src/f" ["f"] true [] 0) "u" "T" []).1
          = .error e)
      ∧ ∀ j ∈ (buildMetaTreeGo sampleHash 0 2
            (BTTree.mk "/src/f" ["f"] true [] 0) "u" "T" []).2.1, j.fs = []) :=
  ⟨by simp,
    c6_amended sampleHash 0 2 (BTTree.mk "/src/f" ["f"] true [] 0) "u" "T" [] (by simp)⟩

/-- Claim C7 counterexample: the artifact dictionary has no key named
`creation date` - the source writes the key as `creation data`. -/
theorem c7_keys_counterexample :
    ¬ ("creation date"
        ∈ (Info.write_data sampleHash (Info.init "a" "T/a.torrent" "u" 0) 0).map Prod.fst) := by
  decide

/-- Claim C7 amended: the artifact produced by `write` is a single
dictionary whose top-level keys are exactly `announce` (a byte string
holding the tracker URL), `creation data` (sic; an integer holding the
epoch seconds) and `info` (a dictionary). -/
theorem c7_keys_amended (hash : List Nat → List Nat) (i : Info) (now : Int) :
    List.Perm ((Info.write_data hash i now).map Prod.fst)
      ["announce", "creation data", "info"]
    ∧ ("announce", BValue.str i.tracker) ∈ Info.write_data hash i now
    ∧ ("creation data", BValue.int now) ∈ Info.write_data hash i now
    ∧ ∃ d, ("info", BValue.dict d) ∈ Info.write_data hash i now := by
  refine ⟨?_, ?_, ?_, ?_⟩
  · show List.Perm ["info", "announce", "creation data"] ["announce", "creation data", "info"]
    decide
  · simp [Info.write_data]
  · simp [Info.write_data]
  · exact ⟨[("pieces", BValue.bytes (Info.write_pieces hash i).flatten),
      ("piece length", BValue.int (i.piece_length : Int)),
      ("files", BValue.list (i.fs.map fileDict)),
      ("name", BValue.str i.name)], by simp [Info.write_data]⟩

/-- Claim C8 (code bug): for every empty directory node (any location,
any nonempty logical path, any tracker, target, prior `infos` and
sufficient fuel), the tree builder returns a node of size 0 with no
children, and entering it creates a scope whose piece length is the
policy-table default 32768 with nothing absorbed (`pieces`, `fs`, `sh`
all empty and `done = 0`) - exactly the true parts of the claim.  But no
metainfo artifact is emitted: because the node has `subs == []` the
driver takes the file branch and `open(loc, 'rb')` on a directory raises
`IOError`, so the call ends in that exception with an empty write list,
contrary to the claim (and to `buildMetaTree`'s own docstring, which
promises a `.torrent` file for every path in the source structure). -/
theorem c8_empty_dir_bug (hash : List Nat → List Nat) (now : Int) (fuel : Nat)
    (loc name : String) (rest : List String) (tracker target : String)
    (infos : List Info) :
    BTTree.initGo (fuel + 1) (FSEntry.dir []) loc (name :: rest)
        = .ok (BTTree.mk loc (name :: rest) false [] 0)
    ∧ buildMetaTreeGo hash now (fuel + 1) (BTTree.mk loc (name :: rest) false [] 0)
          tracker target infos
        = (.error (.ioError loc),
           infos
             ++ [Info.init name (joinPath target (name :: rest) ++ ".torrent") tracker 0],
           [])
    ∧ (Info.init name (joinPath target (name :: rest) ++ ".torrent") tracker 0).piece_length
        = 32768
    ∧ (Info.init name (joinPath target (name :: rest) ++ ".torrent") tracker 0).pieces = []
    ∧ (Info.init name (joinPath target (name :: rest) ++ ".torrent") tracker 0).fs = []
    ∧ (Info.init name (joinPath target (name :: rest) ++ ".torrent") tracker 0).sh = []
    ∧ (Info.init name (joinPath target (name :: rest) ++ ".torrent") tracker 0).done = 0 :=
  ⟨rfl, rfl, rfl, rfl, rfl, rfl, rfl⟩

/-- Claim C9 counterexample: an unsupported entry among a directory's
children makes tree construction fail with `NameError` (the `except
problem:` clause names an undefined variable), not with the
unsupported-entry exception carrying the offending location. -/
theorem c9_counterexample :
    BTTree.initGo 2 (FSEntry.dir [("x", FSEntry.other)]) "/src/a" ["a"]
        = .error (.nameError "problem")
    ∧ BTTree.initGo 2 (FSEntry.dir [("x", FSEntry.other)]) "/src/a" ["a"]
        ≠ .error (.unsupportedEntry "/src/a/x") := by
  refine ⟨rfl, fun hcontra => ?_⟩
  exact absurd (Except.error.inj hcontra) (by decide)

/-- Claim C9 amended: an entry that is neither a regular file nor a
directory is fatal in both positions, but the exception differs: at the
root, construction fails with the unsupported-entry exception carrying
the offending location; among a directory's enumerated children, the
broken `except problem:` clause turns the failure into a `NameError`
that does not carry the location.  Nothing is committed either way. -/
theorem c9_amended (fuel : Nat) (loc loc2 : String) (path path2 : List String)
    (name : String) (hname : ¬ (name.data.head? = some '.')) :
    BTTree.initGo (fuel + 1) FSEntry.other loc path = .error (.unsupportedEntry loc)
    ∧ BTTree.initGo (fuel + 1) (FSEntry.dir [(name, FSEntry.other)]) loc2 path2
        = .error (.nameError "problem") := by
  constructor
  · rfl
  · simp only [BTTree.initGo, sortEntries, insertEntry, List.foldl_cons, List.foldl_nil]
    rw [if_neg hname]
    cases fuel with
    | zero => rfl
    | succ k => rfl

/-- Witness for the amended C9 at concrete inputs. -/
theorem c9_amended_witness :
    (¬ (("x" : String).data.head? = some '.'))
    ∧ (BTTree.initGo 1 FSEntry.other "/z" [] = .error (.unsupportedEntry "/z")
      ∧ BTTree.initGo 1 (FSEntry.dir [("x", FSEntry.other)]) "/src/a" ["a"]
          = .error (.nameError "problem")) :=
  ⟨by decide, c9_amended 0 "/z" "/src/a" [] ["a"] "x" (by decide)⟩

/-- Claim C10 counterexample: two successive driver calls that omit
`infos` share the default list (modelled by threading the list of the
first call into the second), and the `Info` from the first call is indeed
still present at the start of the second - but no file entry and no byte
is ever fed to the stale `Info` (nor to any other): after both calls
every scope still has empty `fs` and empty `pieces`, because leaf
processing raises `UnboundLocalError` before `add_file_info` or
`add_data` runs. -/
theorem c10_counterexample :
    ((buildMetaTreeGo sampleHash 0 2 (BTTree.mk "/src/a" ["a"] true [] 1) "u" "T" []).2.1
      = [Info.init "a" "T/a.torrent" "u" 1])
    ∧ ((buildMetaTreeGo sampleHash 0 2 (BTTree.mk "/src/b" ["b"] true [] 1) "u" "T"
          (buildMetaTreeGo sampleHash 0 2
            (BTTree.mk "/src/a" ["a"] true [] 1) "u" "T" []).2.1).2.1).map Info.fs
        = [[], []]
    ∧ ((buildMetaTreeGo sampleHash 0 2 (BTTree.mk "/src/b" ["b"] true [] 1) "u" "T"
          (buildMetaTreeGo sampleHash 0 2
            (BTTree.mk "/src/a" ["a"] true [] 1) "u" "T" []).2.1).2.1).map Info.pieces
        = [[], []] :=
  ⟨rfl, rfl, rfl⟩

/-- Claim C10 amended: with the shared default list (threaded state),
every `Info` appended during the first call is still present in the list
at the start of the second call, and the second call appends its scopes
onto that same list; however, both calls end in an exception with nothing
written, and no file entry or absorbed byte ever reaches any `Info`,
stale or fresh. -/
theorem c10_amended (hash : List Nat → List Nat) (now : Int) (fuel : Nat)
    (t1 t2 : BTTree) (tracker target : String) :
    ∃ e1 e2 new1 new2,
      buildMetaTreeGo hash now fuel t1 tracker target [] = (.error e1, new1, [])
      ∧ buildMetaTreeGo hash now fuel t2 tracker target new1
          = (.error e2, new1 ++ new2, [])
      ∧ ∀ i ∈ new1 ++ new2, i.fs = [] ∧ i.pieces = [] := by
  obtain ⟨e1, n1, h1, p1⟩ := buildMetaTreeGo_err hash now fuel t1 tracker target []
  obtain ⟨e2, n2, h2, p2⟩ := buildMetaTreeGo_err hash now fuel t2 tracker target ([] ++ n1)
  refine ⟨e1, e2, [] ++ n1, n2, h1, h2, ?_⟩
  intro i hi
  rw [List.mem_append] at hi
  cases hi with
  | inl ha =>
    rw [List.nil_append] at ha
    exact ⟨(p1 i ha).1, (p1 i ha).2.1⟩
  | inr hb => exact ⟨(p2 i hb).1, (p2 i hb).2.1⟩
